import Mathlib

/-!
Verification of the `yesser-todo-cli` command-execution engine.

The definitions below are a shallow embedding of the Rust sources:
  * `src/db/src/lib.rs`        — `Task`, `exactly_matches`, `get_index`
  * `src/cli/src/bin/todo/command_error.rs` — `CommandError` and its `Display` impl
  * `src/cli/src/bin/todo/command_impl.rs`  — `handle_add`, `handle_remove`,
    `handle_done_undone`, `handle_clear`
  * `src/cli/src/bin/todo/command_impl_cloud.rs` — `check_exists_cloud`
  * `src/cli/src/bin/todo/args.rs` — `Command::execute` (local branch)

Rust's in-place mutation of `data: &mut Vec<Task>` is modelled by returning
the resulting list alongside the optional error: a handler returns
`(some e, data)` exactly when the Rust function returns `Err(e)` without
touching `data`, and `(none, data')` when it returns `Ok(())` with the
vector mutated to `data'`.
-/

namespace Todo

/-- `Task` from `src/db/src/lib.rs`: a name and a completion flag. -/
structure Task where
  name : String
  done : Bool
deriving DecidableEq, Repr

/-- `CommandError` from `src/cli/src/bin/todo/command_error.rs`.
`DataError` carries the already-rendered `DatabaseError` message as a plain
string (its `Display` output), since the claims only concern interpolation. -/
inductive CommandError where
  | NoTasksSpecified
  | TaskExists (name : String)
  | TaskNotFound (name : String)
  | DuplicateInput (name : String)
  | DataError (what : String) (err : String)
  | HTTPError (name : String) (status_code : Nat)
  | ConnectionError (name : String)
  | UnlinkedError
deriving DecidableEq, Repr

/-- `exactly_matches` from `src/db/src/lib.rs`: exact equality of the task
name against the query string. -/
def exactly_matches (task : Task) (query_string : String) : Bool :=
  task.name == query_string

/-- `get_index` from `src/db/src/lib.rs`:
`tasks.iter().position(|r| exactly_matches(r, query_string))`, i.e. the
index of the first task whose name exactly matches. -/
def get_index (tasks : List Task) (query_string : String) : Option Nat :=
  match tasks with
  | [] => none
  | r :: rest =>
    if exactly_matches r query_string then some 0
    else (get_index rest query_string).map (fun i => i + 1)

/-- The validation loop of `handle_add` (`command_impl.rs`): walks the
requested names keeping the `seen` set (modelled as a list); a name already
seen yields `DuplicateInput`, a name already in the store
(`data.iter().any(|x| x.name == task)`) yields `TaskExists`. -/
def addValidate (data : List Task) (seen : List String) : List String → Option CommandError
  | [] => none
  | task :: rest =>
    if seen.contains task then some (CommandError.DuplicateInput task)
    else if data.any (fun x => x.name == task) then some (CommandError.TaskExists task)
    else addValidate data (task :: seen) rest

/-- `handle_add` from `command_impl.rs`: empty check, validation loop, then
append every requested name with `done = false` in request order. -/
def handle_add (tasks : List String) (data : List Task) : Option CommandError × List Task :=
  if tasks.isEmpty then (some CommandError.NoTasksSpecified, data)
  else
    match addValidate data [] tasks with
    | some e => (some e, data)
    | none => (none, data ++ tasks.map (fun task => { name := task, done := false }))

/-- The validation loop shared verbatim by `handle_remove` and
`handle_done_undone` (`command_impl.rs`): a repeated name yields
`DuplicateInput`, a name with `get_index(data, task).is_none()` yields
`TaskNotFound`. -/
def nameValidate (data : List Task) (seen : List String) : List String → Option CommandError
  | [] => none
  | task :: rest =>
    if seen.contains task then some (CommandError.DuplicateInput task)
    else if (get_index data task).isNone then some (CommandError.TaskNotFound task)
    else nameValidate data (task :: seen) rest

/-- The mutation loop of `handle_remove` (`command_impl.rs`): for each name,
re-query `get_index` against the current list and remove at that index. -/
def removeLoop : List String → List Task → List Task
  | [], data => data
  | task :: rest, data =>
    match get_index data task with
    | some index => removeLoop rest (data.eraseIdx index)
    | none => removeLoop rest data

/-- `handle_remove` from `command_impl.rs`. -/
def handle_remove (tasks : List String) (data : List Task) : Option CommandError × List Task :=
  if tasks.isEmpty then (some CommandError.NoTasksSpecified, data)
  else
    match nameValidate data [] tasks with
    | some e => (some e, data)
    | none => (none, removeLoop tasks data)

/-- The in-place update `data[index].done = done` of `handle_done_undone`:
set the `done` flag of the element at `index`, leaving the rest unchanged
(out-of-range indices leave the list unchanged, matching that the Rust code
only reaches the assignment under `Some(index)` from `get_index`). -/
def setDoneAt : List Task → Nat → Bool → List Task
  | [], _, _ => []
  | t :: rest, 0, d => { t with done := d } :: rest
  | t :: rest, Nat.succ n, d => t :: setDoneAt rest n d

/-- The mutation loop of `handle_done_undone` (`command_impl.rs`): for each
name, re-query `get_index` and set the `done` flag at that index. -/
def doneLoop (d : Bool) : List String → List Task → List Task
  | [], data => data
  | task :: rest, data =>
    match get_index data task with
    | some index => doneLoop d rest (setDoneAt data index d)
    | none => doneLoop d rest data

/-- `handle_done_undone` from `command_impl.rs`. -/
def handle_done_undone (tasks : List String) (data : List Task) (d : Bool) :
    Option CommandError × List Task :=
  if tasks.isEmpty then (some CommandError.NoTasksSpecified, data)
  else
    match nameValidate data [] tasks with
    | some e => (some e, data)
    | none => (none, doneLoop d tasks data)

/-- `handle_clear` from `command_impl.rs`: `retain(|t| !t.done)` when the
`--done` flag is set, `clear()` otherwise; always succeeds. -/
def handle_clear (doneOnly : Bool) (data : List Task) : Option CommandError × List Task :=
  if doneOnly then (none, data.filter (fun t => !t.done)) else (none, [])

/-- The `Display` implementation of `CommandError`
(`command_error.rs`), producing the user-facing message of each variant. -/
def renderError : CommandError → String
  | CommandError.NoTasksSpecified => "No tasks specified!"
  | CommandError.TaskExists name => "Task " ++ name ++ " already exists!"
  | CommandError.TaskNotFound name => "Task " ++ name ++ " not found!"
  | CommandError.DuplicateInput name => "Task " ++ name ++ " was specified multiple times!"
  | CommandError.DataError what err => "Unable to save " ++ what ++ ": " ++ err ++ "!"
  | CommandError.HTTPError name status_code =>
    if name.isEmpty then "HTTP error code: " ++ toString status_code ++ "!"
    else "HTTP error code: " ++ toString status_code ++ " for task " ++ name
  | CommandError.ConnectionError name =>
    if name.isEmpty then "Failed to connect to the server!"
    else "Failed to connect to the server for task " ++ name
  | CommandError.UnlinkedError => "You\x27re already unlinked!"

/-- The outcome of one remote API call (`client.get_index(task).await` in
`command_impl_cloud.rs`): success, an HTTP error status, or a
transport-level request error (`ApiError::RequestError`). -/
inductive ApiOutcome where
  | success
  | httpError (status_code : Nat)
  | requestError
deriving DecidableEq, Repr

/-- `check_exists_cloud` from `command_impl_cloud.rs`, with the network call
replaced by its outcome: `Ok(_) ⇒ Ok(true)`, `HTTPError(404) ⇒ Ok(false)`,
other `HTTPError(s) ⇒ Err(HTTPError{name, s})`,
`RequestError ⇒ Err(ConnectionError{name})`. -/
def check_exists_cloud (task : String) (result : ApiOutcome) : Except CommandError Bool :=
  match result with
  | ApiOutcome.success => Except.ok true
  | ApiOutcome.httpError status_code =>
    if status_code == 404 then Except.ok false
    else Except.error (CommandError.HTTPError task status_code)
  | ApiOutcome.requestError => Except.error (CommandError.ConnectionError task)

/-- The `Command` enum of `src/cli/src/bin/todo/args.rs`. -/
inductive Command where
  | add (tasks : List String)
  | remove (tasks : List String)
  | done (tasks : List String)
  | undone (tasks : List String)
  | clear (doneOnly : Bool)
  | clearDone
  | list
  | connect (host : String) (port : Option String)
  | disconnect

/-- The `None` (local-mode) branch of `Command::execute` in `args.rs`.
`connectResult` stands for the outcome of `handle_connect`, whose effect is
file I/O outside the task store; `list` prints and leaves the store
unchanged; `Disconnect` in local mode is hard-wired to `Err(UnlinkedError)`. -/
def executeLocal (connectResult : Option CommandError) (c : Command) (data : List Task) :
    Option CommandError × List Task :=
  match c with
  | Command.add tasks => handle_add tasks data
  | Command.remove tasks => handle_remove tasks data
  | Command.done tasks => handle_done_undone tasks data true
  | Command.undone tasks => handle_done_undone tasks data false
  | Command.clear doneOnly => handle_clear doneOnly data
  | Command.clearDone => handle_clear true data
  | Command.list => (none, data)
  | Command.connect _ _ => (connectResult, data)
  | Command.disconnect => (some CommandError.UnlinkedError, data)

/-! ### Helper lemmas about the resolver -/

/-- `get_index` returns `none` exactly when no task has the queried name. -/
theorem get_index_eq_none_iff (data : List Task) (q : String) :
    get_index data q = none ↔ ∀ x ∈ data, x.name ≠ q := by
  induction data with
  | nil => simp [get_index]
  | cons r rest ih =>
    by_cases hr : r.name = q
    · simp [get_index, exactly_matches, hr]
    · simp [get_index, exactly_matches, hr, ih]

/-- `get_index` is `some` exactly when some task has the queried name. -/
theorem get_index_isSome_iff (data : List Task) (q : String) :
    (get_index data q).isSome = true ↔ ∃ x ∈ data, x.name = q := by
  rw [Option.isSome_iff_ne_none, ne_eq, get_index_eq_none_iff]
  push_neg
  rfl

/-- Full characterization of `get_index`: it returns `some index` exactly
when the task at `index` has the queried name and no earlier task does. -/
theorem get_index_eq_some_iff (data : List Task) (q : String) (index : Nat) :
    get_index data q = some index ↔
      ((∃ t, data.get? index = some t ∧ t.name = q)
        ∧ ∀ x ∈ data.take index, x.name ≠ q) := by
  induction data generalizing index with
  | nil => simp [get_index]
  | cons r rest ih =>
    by_cases hr : r.name = q
    · cases index with
      | zero => simp [get_index, exactly_matches, hr]
      | succ j =>
        simp only [get_index, exactly_matches, hr]
        simp [List.take_succ_cons, hr]
    · cases index with
      | zero =>
        simp [get_index, exactly_matches, hr, Option.map_eq_some']
      | succ j =>
        simp only [get_index, exactly_matches, hr]
        simp only [beq_iff_eq, hr, if_false, Option.map_eq_some']
        constructor
        · rintro ⟨i, hi, hij⟩
          have hji : i = j := by omega
          subst hji
          rcases (ih i).mp hi with ⟨⟨t, ht, htn⟩, hpre⟩
          refine ⟨⟨t, ?_, htn⟩, ?_⟩
          · simpa using ht
          · intro x hx
            rcases List.mem_cons.mp (by simpa [List.take_succ_cons] using hx) with h | h
            · subst h; exact hr
            · exact hpre x h
        · rintro ⟨⟨t, ht, htn⟩, hpre⟩
          refine ⟨j, (ih j).mpr ⟨⟨t, by simpa using ht, htn⟩, ?_⟩, rfl⟩
          intro x hx
          exact hpre x (by simp [List.take_succ_cons, hx])

/-- An index returned by `get_index` is in bounds for the collection. -/
theorem get_index_lt_length (data : List Task) (q : String) (index : Nat)
    (h : get_index data q = some index) : index < data.length := by
  rcases (get_index_eq_some_iff data q index).mp h with ⟨⟨t, ht, _⟩, _⟩
  exact (List.get?_eq_some.mp ht).1

/-- Setting the done flag at `index` rewrites exactly that element. -/
theorem setDoneAt_get?_self (data : List Task) (index : Nat) (d : Bool) :
    (setDoneAt data index d).get? index
      = (data.get? index).map (fun t => { t with done := d }) := by
  induction data generalizing index with
  | nil => simp [setDoneAt]
  | cons t rest ih =>
    cases index with
    | zero => simp [setDoneAt]
    | succ n => simpa [setDoneAt] using ih n

/-- Setting the done flag at `index` leaves every other position alone. -/
theorem setDoneAt_get?_ne (data : List Task) (index j : Nat) (d : Bool)
    (h : j ≠ index) :
    (setDoneAt data index d).get? j = data.get? j := by
  induction data generalizing index j with
  | nil => simp [setDoneAt]
  | cons t rest ih =>
    cases index with
    | zero =>
      cases j with
      | zero => exact absurd rfl h
      | succ m => simp [setDoneAt]
    | succ n =>
      cases j with
      | zero => simp [setDoneAt]
      | succ m => simpa [setDoneAt] using ih n m (by omega)

/-! ### Claim theorems -/

/-- C1: for every Add request and store state, if the local Add operation
returns any validation error, the store is left completely unmodified. -/
theorem handle_add_error_store_unchanged (tasks : List String) (data : List Task)
    (e : CommandError) (h : (handle_add tasks data).1 = some e) :
    (handle_add tasks data).2 = data := by
  unfold handle_add at h ⊢
  by_cases he : tasks.isEmpty
  · simp [he]
  · simp only [he, if_false] at h ⊢
    cases hv : addValidate data [] tasks with
    | some e2 => simp [hv]
    | none => rw [hv] at h; simp at h

/-- Witness for C1 at the concrete failing request Add(["x"]) against a
store already containing "x". -/
theorem handle_add_error_store_unchanged_witness :
    (handle_add ["x"] [⟨"x", false⟩]).2 = [⟨"x", false⟩] :=
  handle_add_error_store_unchanged ["x"] [⟨"x", false⟩]
    (CommandError.TaskExists "x") (by decide)

/-- C2 counterexample: with "x" already present in the store,
Add(["x","x"]) returns TaskExists, not DuplicateInput. -/
theorem add_duplicate_pair_counterexample :
    (handle_add ["x", "x"] [⟨"x", false⟩]).1 ≠ some (CommandError.DuplicateInput "x")
      ∧ (handle_add ["x", "x"] [⟨"x", false⟩]).1 = some (CommandError.TaskExists "x") := by
  constructor
  · decide
  · decide

/-- C2 amended: Add([n,n]) returns DuplicateInput{n} when n is not yet in
the store, but TaskExists{n} when n is already present — the per-name
existence check runs before the second occurrence is reached. -/
theorem add_duplicate_pair (n : String) (data : List Task) :
    (handle_add [n, n] data).1 =
      some (if data.any (fun x => x.name == n) then CommandError.TaskExists n
            else CommandError.DuplicateInput n) := by
  by_cases hx : data.any (fun x => x.name == n)
  · simp [handle_add, addValidate, hx]
  · simp [handle_add, addValidate, hx]

/-- C3 counterexample: neither HTTPError nor ConnectionError renders as the
message given in the specification's error table. -/
theorem renderError_counterexample :
    renderError (CommandError.HTTPError "foo" 500) ≠ "HTTP error code 500 for task foo!"
      ∧ renderError (CommandError.ConnectionError "foo")
          ≠ "Failed to connect to the server for task foo!" := by
  constructor
  · decide
  · decide

/-- C3 amended: the exact rendering of every CommandError variant as
implemented. HTTPError renders "HTTP error code: {status} for task {name}"
with no trailing bang (or "HTTP error code: {status}!" when the name is
empty); ConnectionError renders "Failed to connect to the server for task
{name}" (or "Failed to connect to the server!" when empty); the remaining
variants match the specification table. -/
theorem renderError_spec (name what err : String) (status_code : Nat) :
    renderError CommandError.NoTasksSpecified = "No tasks specified!"
    ∧ renderError (CommandError.TaskExists name) = "Task " ++ name ++ " already exists!"
    ∧ renderError (CommandError.TaskNotFound name) = "Task " ++ name ++ " not found!"
    ∧ renderError (CommandError.DuplicateInput name)
        = "Task " ++ name ++ " was specified multiple times!"
    ∧ renderError (CommandError.DataError what err)
        = "Unable to save " ++ what ++ ": " ++ err ++ "!"
    ∧ renderError (CommandError.HTTPError name status_code)
        = (if name = "" then "HTTP error code: " ++ toString status_code ++ "!"
           else "HTTP error code: " ++ toString status_code ++ " for task " ++ name)
    ∧ renderError (CommandError.ConnectionError name)
        = (if name = "" then "Failed to connect to the server!"
           else "Failed to connect to the server for task " ++ name)
    ∧ renderError CommandError.UnlinkedError = "You\x27re already unlinked!" := by
  refine ⟨rfl, rfl, rfl, rfl, rfl, ?_, ?_, rfl⟩
  · by_cases hn : name = ""
    · simp [renderError, hn, String.isEmpty_iff]
    · simp [renderError, hn, String.isEmpty_iff]
  · by_cases hn : name = ""
    · simp [renderError, hn, String.isEmpty_iff]
    · simp [renderError, hn, String.isEmpty_iff]

/-- C4: the remote existence probe maps a successful index lookup to
"exists", HTTP 404 to "does not exist" without error, any other HTTP status
to HTTPError carrying the name and status, and a transport failure to
ConnectionError carrying the name. -/
theorem check_exists_cloud_spec (task : String) (status_code : Nat) :
    check_exists_cloud task ApiOutcome.success = Except.ok true
    ∧ check_exists_cloud task (ApiOutcome.httpError 404) = Except.ok false
    ∧ (status_code ≠ 404 →
        check_exists_cloud task (ApiOutcome.httpError status_code)
          = Except.error (CommandError.HTTPError task status_code))
    ∧ check_exists_cloud task ApiOutcome.requestError
        = Except.error (CommandError.ConnectionError task) := by
  refine ⟨rfl, rfl, ?_, rfl⟩
  intro h
  simp [check_exists_cloud, h]

/-- Witness for C4 at a concrete non-404 failing status. -/
theorem check_exists_cloud_spec_witness :
    check_exists_cloud "t" (ApiOutcome.httpError 500)
      = Except.error (CommandError.HTTPError "t" 500) :=
  (check_exists_cloud_spec "t" 500).2.2.1 (by decide)

/-- C7: an Add request that passes validation appends one task per
requested name at the end of the store, in request order, with done=false. -/
theorem handle_add_success_appends (tasks : List String) (data : List Task)
    (h : (handle_add tasks data).1 = none) :
    (handle_add tasks data).2
      = data ++ tasks.map (fun task => { name := task, done := false }) := by
  unfold handle_add at h ⊢
  by_cases he : tasks.isEmpty
  · simp [he] at h
  · simp only [he, if_false] at h ⊢
    cases hv : addValidate data [] tasks with
    | some e => rw [hv] at h; simp at h
    | none => simp [hv]

/-- Witness for C7: Add(["a","b"]) on the empty store yields [a, b]. -/
theorem handle_add_success_appends_witness :
    (handle_add ["a", "b"] []).2 = [⟨"a", false⟩, ⟨"b", false⟩] :=
  (handle_add_success_appends ["a", "b"] [] (by decide)).trans (by decide)

/-- C8: executing Disconnect in local mode (no remote client configured)
returns UnlinkedError rather than succeeding, for every store state and
whatever outcome the connect handler would have. -/
theorem executeLocal_disconnect_unlinked (connectResult : Option CommandError)
    (data : List Task) :
    executeLocal connectResult Command.disconnect data
      = (some CommandError.UnlinkedError, data) := rfl

/-- C9: every store index used by the mutation loops comes from a
`get_index` call that just returned `some`, so it is strictly below the
current store length; the removal shortens the list by exactly one element
and the done-flag update rewrites exactly the addressed element, so neither
access is out of bounds. -/
theorem mutation_index_in_bounds (data : List Task) (q : String) (index : Nat) (d : Bool)
    (h : get_index data q = some index) :
    index < data.length
    ∧ (data.eraseIdx index).length + 1 = data.length
    ∧ (setDoneAt data index d).get? index
        = (data.get? index).map (fun t => { t with done := d }) := by
  have hlt := get_index_lt_length data q index h
  refine ⟨hlt, ?_, setDoneAt_get?_self data index d⟩
  rw [List.length_eraseIdx, if_pos hlt]
  omega

/-- Witness for C9 at a concrete resolved index. -/
theorem mutation_index_in_bounds_witness :
    1 < ([⟨"a", false⟩, ⟨"b", true⟩] : List Task).length :=
  (mutation_index_in_bounds [⟨"a", false⟩, ⟨"b", true⟩] "b" 1 true (by decide)).1

/-! ### Helper lemmas for the Remove batch -/

/-- With pairwise-distinct store names, erasing at the index that
`get_index` found equals filtering the queried name out. -/
theorem eraseIdx_get_index_of_nodup (data : List Task) (q : String) (index : Nat)
    (hnd : (data.map Task.name).Nodup) (h : get_index data q = some index) :
    data.eraseIdx index = data.filter (fun x => !(x.name == q)) := by
  induction data generalizing index with
  | nil => simp [get_index] at h
  | cons r rest ih =>
    rw [List.map_cons, List.nodup_cons] at hnd
    by_cases hr : r.name = q
    · have h0 : index = 0 := by
        rw [get_index] at h
        simp only [exactly_matches, hr, beq_self_eq_true, if_true] at h
        exact (Option.some.inj h).symm
      subst h0
      rw [List.eraseIdx_cons_zero, List.filter_cons]
      simp only [hr, beq_self_eq_true, Bool.not_true, if_false]
      symm
      apply List.filter_eq_self.mpr
      intro x hx
      simp only [Bool.not_eq_true', beq_eq_false_iff_ne, ne_eq]
      intro hxq
      exact hnd.1 (List.mem_map.mpr ⟨x, hx, by rw [hxq, hr]⟩)
    · rw [get_index] at h
      simp only [exactly_matches, beq_iff_eq, hr, if_false, Option.map_eq_some'] at h
      rcases h with ⟨j, hj, hji⟩
      have : index = j + 1 := by omega
      subst this
      rw [List.eraseIdx_cons_succ, List.filter_cons]
      rw [if_pos (by simp [hr]), ih j hnd.2 hj]

/-- The mutation loop of Remove, on a store with pairwise-distinct names
and a duplicate-free request whose names all occur in the store, removes
exactly the requested names and keeps the rest in order. -/
theorem removeLoop_eq_filter (tasks : List String) (data : List Task)
    (htasks : tasks.Nodup)
    (hstore : (data.map Task.name).Nodup)
    (hres : ∀ t ∈ tasks, ∃ x ∈ data, x.name = t) :
    removeLoop tasks data = data.filter (fun x => !(tasks.contains x.name)) := by
  induction tasks generalizing data with
  | nil =>
    rw [removeLoop]
    symm
    apply List.filter_eq_self.mpr
    intro a _
    rfl
  | cons t rest ih =>
    rw [List.nodup_cons] at htasks
    obtain ⟨i, hi⟩ : ∃ i, get_index data t = some i :=
      Option.isSome_iff_exists.mp
        ((get_index_isSome_iff data t).mpr (hres t (by simp)))
    have hstep : removeLoop (t :: rest) data = removeLoop rest (data.eraseIdx i) := by
      simp only [removeLoop, hi]
    rw [hstep, eraseIdx_get_index_of_nodup data t i hstore hi]
    have hstore' : ((data.filter (fun x => !(x.name == t))).map Task.name).Nodup :=
      List.Nodup.sublist ((List.filter_sublist data).map Task.name) hstore
    have hres' : ∀ s ∈ rest, ∃ x ∈ data.filter (fun x => !(x.name == t)), x.name = s := by
      intro s hs
      rcases hres s (by simp [hs]) with ⟨x, hx, hxs⟩
      have hst : s ≠ t := fun h => htasks.1 (h ▸ hs)
      refine ⟨x, List.mem_filter.mpr ⟨hx, ?_⟩, hxs⟩
      simp only [Bool.not_eq_true', beq_eq_false_iff_ne, ne_eq, hxs]
      exact hst
    rw [ih _ htasks.2 hstore' hres', List.filter_filter]
    apply List.filter_congr
    intro a _
    simp only [List.contains_cons, Bool.not_or]
    rw [Bool.and_comm]

/-- The validation loop shared by Remove and Done/Undone returns `none`
when the request has no repeated name, every name resolves in the store,
and no requested name is in the `seen` accumulator yet. -/
theorem nameValidate_eq_none (data : List Task) (seen tasks : List String)
    (htasks : tasks.Nodup)
    (hres : ∀ t ∈ tasks, (get_index data t).isSome)
    (hseen : ∀ t ∈ tasks, seen.contains t = false) :
    nameValidate data seen tasks = none := by
  induction tasks generalizing seen with
  | nil => rfl
  | cons t rest ih =>
    rw [List.nodup_cons] at htasks
    have h1 : seen.contains t = false := hseen t (by simp)
    have h2 : (get_index data t).isNone = false := by
      have h := hres t (by simp)
      cases hg : get_index data t
      · rw [hg] at h; simp at h
      · rfl
    rw [nameValidate, h1]
    simp only [Bool.false_eq_true, if_false, h2]
    apply ih (t :: seen) htasks.2
    · intro s hs
      exact hres s (List.mem_cons_of_mem t hs)
    · intro s hs
      have hst : s ≠ t := fun h => htasks.1 (h ▸ hs)
      simp only [List.contains_cons, Bool.or_eq_false_iff, beq_eq_false_iff_ne]
      exact ⟨hst, hseen s (List.mem_cons_of_mem t hs)⟩

/-- The validation loop, on a duplicate-free request containing a name that
does not resolve, reports `TaskNotFound` for an unresolvable name. -/
theorem nameValidate_not_found (data : List Task) (seen tasks : List String)
    (htasks : tasks.Nodup)
    (hseen : ∀ t ∈ tasks, seen.contains t = false)
    (hmiss : ∃ t ∈ tasks, get_index data t = none) :
    ∃ w ∈ tasks, get_index data w = none
      ∧ nameValidate data seen tasks = some (CommandError.TaskNotFound w) := by
  induction tasks generalizing seen with
  | nil => simp at hmiss
  | cons t rest ih =>
    rw [List.nodup_cons] at htasks
    have h1 : seen.contains t = false := hseen t (by simp)
    cases hg : get_index data t with
    | none =>
      refine ⟨t, by simp, hg, ?_⟩
      rw [nameValidate, h1]
      simp [hg]
    | some i =>
      have hrest : ∃ s ∈ rest, get_index data s = none := by
        rcases hmiss with ⟨s, hs, hnone⟩
        rcases List.mem_cons.mp hs with rfl | hsr
        · rw [hg] at hnone; exact absurd hnone (by simp)
        · exact ⟨s, hsr, hnone⟩
      have hseen' : ∀ s ∈ rest, (t :: seen).contains s = false := by
        intro s hs
        have hst : s ≠ t := fun h => htasks.1 (h ▸ hs)
        simp only [List.contains_cons, Bool.or_eq_false_iff, beq_eq_false_iff_ne]
        exact ⟨hst, hseen s (List.mem_cons_of_mem t hs)⟩
      rcases ih (t :: seen) htasks.2 hseen' hrest with ⟨w, hw, hwn, hval⟩
      refine ⟨w, by simp [hw], hwn, ?_⟩
      rw [nameValidate, h1]
      simpa [hg] using hval

/-- C5 counterexample: on a store holding two tasks both named "a",
Remove(["a"]) succeeds but the result still contains a task named "a",
while "exactly the tasks whose names were not in the request" would be the
empty list. -/
theorem handle_remove_counterexample :
    handle_remove ["a"] [⟨"a", false⟩, ⟨"a", true⟩] = (none, [⟨"a", true⟩])
      ∧ ([⟨"a", false⟩, ⟨"a", true⟩] : List Task).filter
          (fun x => !(["a"].contains x.name)) = [] := by
  constructor
  · decide
  · decide

/-- C5 amended: assuming additionally that the store's task names are
pairwise distinct, a Remove request of pairwise-distinct names that all
resolve succeeds and leaves exactly the tasks whose names were not
requested, in their original relative order (the mutation loop re-queries
the resolver for each name's current position, as `removeLoop` does by
definition); and if some requested name does not resolve, Remove returns
`TaskNotFound` for such a name and removes nothing. -/
theorem handle_remove_spec (tasks : List String) (data : List Task)
    (hne : tasks ≠ [])
    (htasks : tasks.Nodup)
    (hstore : (data.map Task.name).Nodup) :
    ((∀ t ∈ tasks, (get_index data t).isSome) →
        handle_remove tasks data
          = (none, data.filter (fun x => !(tasks.contains x.name))))
    ∧ ((∃ t ∈ tasks, get_index data t = none) →
        ∃ w ∈ tasks, get_index data w = none ∧
          handle_remove tasks data = (some (CommandError.TaskNotFound w), data)) := by
  have hemp : tasks.isEmpty = false := by
    cases tasks
    · exact absurd rfl hne
    · rfl
  constructor
  · intro hres
    have hv : nameValidate data [] tasks = none :=
      nameValidate_eq_none data [] tasks htasks hres (fun t _ => rfl)
    have hloop : removeLoop tasks data
        = data.filter (fun x => !(tasks.contains x.name)) := by
      apply removeLoop_eq_filter tasks data htasks hstore
      intro t ht
      exact (get_index_isSome_iff data t).mp (hres t ht)
    rw [handle_remove, hemp]
    simp only [Bool.false_eq_true, if_false, hv, hloop]
  · intro hmiss
    rcases nameValidate_not_found data [] tasks htasks (fun t _ => rfl) hmiss
      with ⟨w, hw, hwn, hval⟩
    refine ⟨w, hw, hwn, ?_⟩
    rw [handle_remove, hemp]
    simp only [Bool.false_eq_true, if_false, hval]

/-- Witness for C5 at a concrete resolvable request. -/
theorem handle_remove_spec_witness :
    handle_remove ["a"] [⟨"a", false⟩, ⟨"b", true⟩] = (none, [⟨"b", true⟩]) := by
  have h := (handle_remove_spec ["a"] [⟨"a", false⟩, ⟨"b", true⟩]
    (by decide) (by decide) (by decide)).1 (by decide)
  exact h.trans (by decide)

/-- C6: the resolver compares by exact case-sensitive string equality
against `Task.name`, returns `some` of the first matching position when a
match exists (first match wins on duplicates), and `none` when no task
matches — in particular on the empty collection.  The spec's three example
evaluations are included verbatim. -/
theorem get_index_resolver_spec (data : List Task) (q : String) :
    (∀ index, get_index data q = some index ↔
        ((∃ t, data.get? index = some t ∧ t.name = q)
          ∧ ∀ x ∈ data.take index, x.name ≠ q))
    ∧ (get_index data q = none ↔ ∀ x ∈ data, x.name ≠ q)
    ∧ get_index [] q = none
    ∧ get_index [⟨"a", false⟩, ⟨"b", true⟩] "b" = some 1
    ∧ get_index [⟨"a", false⟩, ⟨"a", true⟩] "a" = some 0 := by
  refine ⟨fun index => get_index_eq_some_iff data q index,
    get_index_eq_none_iff data q, rfl, by decide, by decide⟩

/-- C10: on a store containing the queried name more than once, Done/Undone
sets the done flag only on the first occurrence and Remove removes only the
first occurrence; every other position is left unchanged. -/
theorem duplicate_names_first_occurrence (data : List Task) (n : String)
    (index : Nat) (d : Bool)
    (_hdup : 2 ≤ (data.map Task.name).count n)
    (hidx : get_index data n = some index) :
    handle_done_undone [n] data d = (none, setDoneAt data index d)
    ∧ (setDoneAt data index d).get? index
        = (data.get? index).map (fun t => { t with done := d })
    ∧ (∀ j, j ≠ index → (setDoneAt data index d).get? j = data.get? j)
    ∧ handle_remove [n] data = (none, data.eraseIdx index)
    ∧ data.eraseIdx index = data.take index ++ data.drop (index + 1) := by
  have hsome : (get_index data n).isNone = false := by rw [hidx]; rfl
  refine ⟨?_, setDoneAt_get?_self data index d,
    fun j hj => setDoneAt_get?_ne data index j d hj, ?_,
    List.eraseIdx_eq_take_drop_succ data index⟩
  · simp [handle_done_undone, nameValidate, hsome, doneLoop, hidx]
  · simp [handle_remove, nameValidate, hsome, removeLoop, hidx]

/-- Witness for C10 on a store with two tasks named "a". -/
theorem duplicate_names_first_occurrence_witness :
    handle_done_undone ["a"] [⟨"a", false⟩, ⟨"a", true⟩] true
      = (none, [⟨"a", true⟩, ⟨"a", true⟩])
      ∧ handle_remove ["a"] [⟨"a", false⟩, ⟨"a", true⟩] = (none, [⟨"a", true⟩]) := by
  have h := duplicate_names_first_occurrence [⟨"a", false⟩, ⟨"a", true⟩] "a" 0 true
    (by decide) (by decide)
  exact ⟨h.1.trans (by decide), h.2.2.2.1.trans (by decide)⟩

end Todo
